import Mathlib

/-!
Shallow embedding of the agent/retrieval core of the ai-doc-assistant backend
(`app/agent/*.py`, `app/services/query_intelligence_service.py`,
`app/services/advanced_retrieval_service.py`, `app/services/llm_service.py`),
together with theorems settling the specification claims about it.

Machine floats of the source are modelled as rationals, Python lists as Lean
lists, and each external backend (HTTP generation call, database retrieval)
as an explicit parameter describing its outcome, so that every definition
is executable and every claim can be evaluated on concrete inputs.
-/

/-! ## Shared data model (`app/agent/state.py`) -/

/-- `TaskStatus` enum from `app/agent/state.py`. -/
inductive TaskStatus where
  | pending
  | running
  | done
  | failed
deriving DecidableEq, Repr

/-- `SubTask` dataclass: one atomic sub-question produced by the Planner. -/
structure SubTask where
  id : Nat
  query : String
  status : TaskStatus
deriving DecidableEq, Repr

/-- `StepResult` dataclass: output of the Executor for a single SubTask. -/
structure StepResult where
  taskId : Nat
  query : String
  context : List String
  answer : String
  failed : Bool
deriving DecidableEq, Repr

/-- `EvalResult` dataclass: the Evaluator self-assessment of the combined answer. -/
structure EvalResult where
  score : ℚ
  completeness : ℤ
  accuracy : ℤ
  gaps : List String
  sufficient : Bool
deriving DecidableEq, Repr

/-! ## Planner (`app/agent/planner.py`)

`_parse_tasks` builds `SubTask(id=i, query=q.strip(), ...)` for
`i, q in enumerate(tasks_raw)` keeping only entries with `q.strip()` truthy,
after substituting `[goal]` for an empty list and truncating to `max_tasks`.
`plan_from_gaps` does the same comprehension over `gaps[:max_tasks]`.
The comprehension (enumerate + filter on the stripped text) is embedded as
the index-threading recursion `buildTasks`. -/

/-- Python `str.strip()` on the character list: drop leading and trailing
whitespace. Implemented structurally so the kernel can evaluate it. -/
def pyStrip (s : String) : String :=
  ⟨((s.data.dropWhile Char.isWhitespace).reverse.dropWhile Char.isWhitespace).reverse⟩

/-- The list comprehension shared by `_parse_tasks` and `plan_from_gaps`:
ids come from `enumerate` (starting at `i`) and blank entries are dropped
after the id has been assigned. -/
def buildTasks (i : Nat) : List String → List SubTask
  | [] => []
  | q :: qs =>
      if pyStrip q = "" then buildTasks (i + 1) qs
      else ⟨i, pyStrip q, TaskStatus.pending⟩ :: buildTasks (i + 1) qs

/-- `tasks_raw or [goal]` substitution in `_parse_tasks`: the raw task list
extracted from the model JSON, with `[]` standing for a parse failure or a
missing/empty `tasks` array. -/
def effectiveTasks (tasksRaw : List String) (goal : String) : List String :=
  if tasksRaw = [] then [goal] else tasksRaw

/-- `_parse_tasks(raw, goal, max_tasks)` after JSON extraction: the input
`tasksRaw` is the `data.get("tasks") or []` list ( `[]` on parse failure). -/
def parseTasks (tasksRaw : List String) (goal : String) (maxTasks : Nat) : List SubTask :=
  buildTasks 0 ((effectiveTasks tasksRaw goal).take maxTasks)

/-- `Planner.plan_from_gaps(gaps)` with the configured `max_tasks`. -/
def planFromGaps (gaps : List String) (maxTasks : Nat) : List SubTask :=
  buildTasks 0 (gaps.take maxTasks)

/-- Every id produced by `buildTasks i l` is at least `i`. -/
theorem buildTasks_id_ge (l : List String) : ∀ i t, t ∈ buildTasks i l → i ≤ t.id := by
  induction l with
  | nil => intro i t h; simp [buildTasks] at h
  | cons q qs ih =>
      intro i t h
      by_cases hb : pyStrip q = ""
      · simp only [buildTasks, hb, if_pos rfl] at h
        exact Nat.le_of_succ_le (ih (i + 1) t h)
      · simp only [buildTasks, if_neg hb, List.mem_cons] at h
        rcases h with h | h
        · simp [h]
        · exact Nat.le_of_succ_le (ih (i + 1) t h)

/-- The ids produced by `buildTasks` are strictly increasing. -/
theorem buildTasks_pairwise (l : List String) :
    ∀ i, List.Pairwise (· < ·) ((buildTasks i l).map (·.id)) := by
  induction l with
  | nil => intro i; simp [buildTasks]
  | cons q qs ih =>
      intro i
      by_cases hb : pyStrip q = ""
      · simpa only [buildTasks, hb, if_pos rfl] using ih (i + 1)
      · simp only [buildTasks, if_neg hb, List.map_cons, List.pairwise_cons]
        refine ⟨?_, ih (i + 1)⟩
        intro x hx
        rcases List.mem_map.mp hx with ⟨t, ht, rfl⟩
        exact Nat.lt_of_succ_le (buildTasks_id_ge qs (i + 1) t ht)

/-- `buildTasks` never returns more tasks than input entries. -/
theorem buildTasks_length_le (l : List String) :
    ∀ i, (buildTasks i l).length ≤ l.length := by
  induction l with
  | nil => intro i; simp [buildTasks]
  | cons q qs ih =>
      intro i
      by_cases hb : pyStrip q = ""
      · simp only [buildTasks, hb, if_pos rfl, List.length_cons]
        exact Nat.le_succ_of_le (ih (i + 1))
      · simp only [buildTasks, if_neg hb, List.length_cons]
        exact Nat.succ_le_succ (ih (i + 1))

/-- Every surviving task query is a stripped, non-blank entry. -/
theorem buildTasks_query_ne (l : List String) :
    ∀ i t, t ∈ buildTasks i l → t.query ≠ "" := by
  induction l with
  | nil => intro i t h; simp [buildTasks] at h
  | cons q qs ih =>
      intro i t h
      by_cases hb : pyStrip q = ""
      · simp only [buildTasks, hb, if_pos rfl] at h
        exact ih (i + 1) t h
      · simp only [buildTasks, if_neg hb, List.mem_cons] at h
        rcases h with h | h
        · simpa [h] using hb
        · exact ih (i + 1) t h

/-- When no entry is blank, `buildTasks i l` ids are exactly `i, i+1, ...`. -/
theorem buildTasks_noblank (l : List String) :
    ∀ i, (∀ q ∈ l, pyStrip q ≠ "") →
      (buildTasks i l).map (·.id) = List.range' i l.length := by
  induction l with
  | nil => intro i _; simp [buildTasks]
  | cons q qs ih =>
      intro i h
      have hb : pyStrip q ≠ "" := h q (List.mem_cons_self q qs)
      simp only [buildTasks, if_neg hb, List.map_cons, List.length_cons, List.range'_succ]
      exact congrArg (i :: ·) (ih (i + 1) (fun x hx => h x (List.mem_cons_of_mem q hx)))

/-- C7 counterexample: with a blank first entry, `plan_from_gaps` returns
ids `[1]`, not the sequential `0`-based ids the claim requires. -/
theorem planner_ids_counterexample :
    (planFromGaps [" ", "a"] 4).map (·.id)
      ≠ List.range (planFromGaps [" ", "a"] 4).length := by
  decide

/-- C7 (amended): `_parse_tasks` and `plan_from_gaps` truncate to the
configured maximum and drop blank entries, but ids are assigned by position
in the truncated input before blanks are dropped: they are strictly
increasing, and sequential `0, 1, 2, ...` exactly when no retained entry is
blank. -/
theorem planner_ids_monotone (tasksRaw gaps : List String) (goal : String) (maxTasks : Nat) :
    (List.Pairwise (· < ·) ((parseTasks tasksRaw goal maxTasks).map (·.id))
      ∧ (parseTasks tasksRaw goal maxTasks).length ≤ maxTasks
      ∧ (∀ t ∈ parseTasks tasksRaw goal maxTasks, t.query ≠ "")
      ∧ ((∀ q ∈ (effectiveTasks tasksRaw goal).take maxTasks, pyStrip q ≠ "") →
          (parseTasks tasksRaw goal maxTasks).map (·.id)
            = List.range ((effectiveTasks tasksRaw goal).take maxTasks).length))
    ∧ (List.Pairwise (· < ·) ((planFromGaps gaps maxTasks).map (·.id))
      ∧ (planFromGaps gaps maxTasks).length ≤ maxTasks
      ∧ (∀ t ∈ planFromGaps gaps maxTasks, t.query ≠ "")
      ∧ ((∀ q ∈ gaps.take maxTasks, pyStrip q ≠ "") →
          (planFromGaps gaps maxTasks).map (·.id)
            = List.range (gaps.take maxTasks).length)) := by
  refine ⟨⟨buildTasks_pairwise _ 0, ?_, fun t ht => buildTasks_query_ne _ 0 t ht, ?_⟩,
          ⟨buildTasks_pairwise _ 0, ?_, fun t ht => buildTasks_query_ne _ 0 t ht, ?_⟩⟩
  · exact le_trans (buildTasks_length_le _ 0) (List.length_take_le _ _)
  · intro h
    rw [parseTasks, buildTasks_noblank _ 0 h, List.range_eq_range']
  · exact le_trans (buildTasks_length_le _ 0) (List.length_take_le _ _)
  · intro h
    rw [planFromGaps, buildTasks_noblank _ 0 h, List.range_eq_range']

/-- C7 witness: on the all-non-blank input `["g1", "g2"]`, ids are
sequential `0, 1`. -/
theorem planner_ids_monotone_witness :
    (planFromGaps ["g1", "g2"] 4).map (·.id)
      = List.range (["g1", "g2"].take 4).length :=
  (planner_ids_monotone ["a"] ["g1", "g2"] "g" 4).2.2.2.2 (by decide)

/-! ## Context sufficiency judge (`app/services/query_intelligence_service.py`)

`evaluate_context(query_terms, contexts, avg_rank_score)` computes term
coverage over the concatenated lowered context text and checks the three
configured thresholds, with a low-confidence override at `0.28`. -/

/-- Python `str.lower()` (character-wise). -/
def lowerStr (s : String) : String :=
  ⟨s.data.map Char.toLower⟩

/-- One character of the regex class `[a-zA-Z0-9_]`. -/
def wordChar (c : Char) : Bool :=
  c.isAlphanum || c = '_'

/-- Maximal runs of word characters (`cur` is the current run, reversed). -/
def wordRuns (cur : List Char) : List Char → List (List Char)
  | [] => if cur.isEmpty then [] else [cur.reverse]
  | c :: cs =>
      if wordChar c then wordRuns (c :: cur) cs
      else if cur.isEmpty then wordRuns [] cs
      else cur.reverse :: wordRuns [] cs

/-- `_tokenize`: `re.findall(r"[a-zA-Z0-9_]{2,}", text.lower())`, i.e. the
maximal word-character runs of length at least 2 in the lowered text. -/
def tokenizeQ (text : String) : List String :=
  ((wordRuns [] (lowerStr text).data).filter (fun r => 2 ≤ r.length)).map (fun r => ⟨r⟩)

/-- `_STOP_WORDS` from the source. -/
def STOP_WORDS : List String :=
  ["a", "an", "and", "are", "as", "at", "be", "for", "from", "how", "in", "is",
   "it", "of", "on", "or", "that", "the", "to", "what", "which", "with"]

/-- `_informative_tokens`: drop stop words. -/
def informativeTokens (tokens : List String) : List String :=
  tokens.filter (fun t => ¬ STOP_WORDS.contains t)

/-- First-occurrence deduplication, as `list(dict.fromkeys(...))` and the
insertion order of a Python dict. -/
def dedupFirst : List String → List String
  | [] => []
  | x :: xs => x :: dedupFirst (xs.filter (fun y => y ≠ x))
termination_by l => l.length
decreasing_by
  simp only [List.length_cons]
  exact Nat.lt_succ_of_le (List.length_filter_le _ _)

/-- Does `needle` occur at the head of `hay`? -/
def headMatch : List Char → List Char → Bool
  | [], _ => true
  | _ :: _, [] => false
  | a :: as, b :: bs => a == b && headMatch as bs

/-- Substring test on character lists (Python `needle in hay`). -/
def hasSub (needle : List Char) : List Char → Bool
  | [] => needle.isEmpty
  | b :: bs => headMatch needle (b :: bs) || hasSub needle bs

/-- Python `term in blob` on strings. -/
def strIn (needle blob : String) : Bool :=
  hasSub needle.data blob.data

/-- Python `" ".join(items)`. -/
def joinSpace (items : List String) : String :=
  String.intercalate " " items

/-- `unique_terms` of `evaluate_context`: query terms longer than 2
characters, first-occurrence deduplicated; if none remain, the informative
tokens of the first context item. -/
def uniqueTermsOf (queryTerms contexts : List String) : List String :=
  let ut := dedupFirst (queryTerms.filter (fun t => 2 < t.length))
  if ut = [] then informativeTokens (tokenizeQ (joinSpace (contexts.take 1))) else ut

/-- The coverage ratio computed by `evaluate_context`: hits of the unique
terms in the lowered concatenated context over `max(len(unique_terms), 1)`. -/
def coverageOf (queryTerms contexts : List String) : ℚ :=
  let ut := uniqueTermsOf queryTerms contexts
  let blob := lowerStr (joinSpace contexts)
  ((ut.filter (fun t => strIn t blob)).length : ℚ) / (max ut.length 1 : ℚ)

/-- `sum(len(item) for item in contexts)`. -/
def charCount (contexts : List String) : Nat :=
  (contexts.map String.length).sum

/-- `ContextEvaluation` dataclass. -/
structure ContextEvaluation where
  sufficient : Bool
  coverageScore : ℚ
  reason : String
deriving DecidableEq, Repr

/-- The three configured thresholds read from `settings`. -/
structure QISettings where
  minChunks : Nat
  minChars : Nat
  minCoverage : ℚ
deriving Repr

/-- `evaluate_context(query_terms, contexts, avg_rank_score)`. -/
def evaluateContext (st : QISettings) (queryTerms contexts : List String)
    (avgRankScore : Option ℚ) : ContextEvaluation :=
  if contexts = [] then ⟨false, 0, "No chunks retrieved"⟩
  else
    let coverage := coverageOf queryTerms contexts
    let lowConf := match avgRankScore with
      | some a => decide (a < 28 / 100)
      | none => false
    if lowConf then ⟨false, coverage, "Low rerank confidence"⟩
    else
      let sufficientB :=
        decide (st.minChunks ≤ contexts.length)
          && decide (st.minChars ≤ charCount contexts)
          && decide (st.minCoverage ≤ coverage)
      ⟨sufficientB, coverage,
        if sufficientB then "Context appears sufficient"
        else "Context is thin; escalation recommended"⟩

/-- C8: `evaluate_context` is sufficient exactly when the chunk count, the
total character count and the coverage all reach their configured
thresholds inclusively, unless a supplied average rerank score is strictly
below `0.28`; the empty context list yields `sufficient = false` with
coverage `0.0`. -/
theorem evaluate_context_sufficient_iff (st : QISettings) (queryTerms contexts : List String)
    (avgRankScore : Option ℚ) :
    ((evaluateContext st queryTerms contexts avgRankScore).sufficient = true ↔
      (contexts ≠ []
        ∧ (∀ a, avgRankScore = some a → ¬ a < 28 / 100)
        ∧ st.minChunks ≤ contexts.length
        ∧ st.minChars ≤ charCount contexts
        ∧ st.minCoverage ≤ coverageOf queryTerms contexts))
    ∧ (contexts = [] →
        evaluateContext st queryTerms contexts avgRankScore = ⟨false, 0, "No chunks retrieved"⟩) := by
  constructor
  · by_cases hc : contexts = []
    · simp [evaluateContext, hc]
    · cases avgRankScore with
      | none => simp [evaluateContext, hc, and_assoc]
      | some a =>
          by_cases hl : a < 28 / 100
          · simp [evaluateContext, hc, hl]
          · have hl' := not_lt.mp hl
            simp [evaluateContext, hc, hl, hl', and_assoc]
  · intro hc
    simp [evaluateContext, hc]

/-- C8 witness: a concrete context at the thresholds is sufficient, and the
empty context list is insufficient with coverage `0`. -/
theorem evaluate_context_sufficient_iff_witness :
    (evaluateContext ⟨1, 2, 0⟩ [] ["ab"] none).sufficient = true
      ∧ evaluateContext ⟨1, 2, 0⟩ [] [] none = ⟨false, 0, "No chunks retrieved"⟩ := by
  constructor
  · refine (evaluate_context_sufficient_iff ⟨1, 2, 0⟩ [] ["ab"] none).1.mpr
      ⟨by decide, by simp, by decide, by decide, ?_⟩
    unfold coverageOf
    exact div_nonneg (Nat.cast_nonneg _) (le_trans zero_le_one (le_max_right _ _))
  · exact (evaluate_context_sufficient_iff ⟨1, 2, 0⟩ [] [] none).2 rfl

/-! ## Rank fusion (`app/services/advanced_retrieval_service.py`)

`_rrf_merge` accumulates `query_weight / (60 + rank)` per chunk into a dict
(weight `1.0` for list index 0, `0.9` otherwise, 1-indexed rank), then sorts
descending by score and truncates. `retrieve_expanded_context` collects the
non-empty retrieval result lists of the expanded queries and fuses them.
The dict is embedded as a score function plus the first-seen key order, and
the stable descending `sorted(...)` as a stable insertion sort. -/

/-- Contribution of a single ranked list to the fused score of chunk `c`:
`rank` is the 1-indexed position carried through the recursion, and every
occurrence of `c` contributes (a dict accumulates `+=` per row). -/
def rowContrib (w : ℚ) (c : String) : List String → Nat → ℚ
  | [], _ => 0
  | r :: rs, rank =>
      (if r = c then w / ((60 + rank : Nat) : ℚ) else 0) + rowContrib w c rs (rank + 1)

/-- Fused-score contributions of the lists after the first (weight `0.9`). -/
def restScore (c : String) : List (List String) → ℚ
  | [] => 0
  | rows :: rest => rowContrib (9 / 10) c rows 1 + restScore c rest

/-- The dict value `scores[c]` built by `_rrf_merge`: weight `1.0` for the
list at index 0, `0.9` for every later list. -/
def rrfScore (lists : List (List String)) (c : String) : ℚ :=
  match lists with
  | [] => 0
  | l0 :: rest => rowContrib 1 c l0 1 + restScore c rest

/-- Dict key order of `_rrf_merge`: first-seen order over all rows. -/
def rrfKeys (lists : List (List String)) : List String :=
  dedupFirst lists.flatten

/-- Stable descending sort by score, as Python `sorted(..., key=score,
reverse=True)`: a stable insertion sort along the relation
`score b ≤ score a`. -/
def sortByScoreDesc (score : String → ℚ) (keys : List String) : List String :=
  List.insertionSort (fun a b => score b ≤ score a) keys

/-- `_rrf_merge(results_by_query, k)`: sort the chunks descending by fused
score (stably, as Python `sorted(..., reverse=True)`) and take the first `k`. -/
def rrfMerge (lists : List (List String)) (k : Nat) : List String :=
  (sortByScoreDesc (rrfScore lists) (rrfKeys lists)).take k

/-- The `all_ranked` list of `retrieve_expanded_context`: the retrieval
results of each query, keeping only the non-empty ones. -/
def allRankedOf (retr : String → List String) (queries : List String) : List (List String) :=
  (queries.map retr).filter (fun rows => rows ≠ [])

/-- `retrieve_expanded_context(db, user_id, expanded_queries, candidate_k)`,
with the per-query retrieval backend abstracted as `retr`. -/
def retrieveExpandedContext (retr : String → List String) (queries : List String)
    (candidateK : Nat) : List String :=
  if queries = [] then []
  else
    match allRankedOf retr queries with
    | [] => []
    | [single] => single.take candidateK
    | lists => rrfMerge lists candidateK

/-- The claim side of C9, following the spec text: each chunk's fused score
is the sum over the ranked lists containing it of `weight / (60 + rank)`
with 1-indexed rank (`rank = indexOf + 1`), where the original query's list
weighs `1.0` and every expansion list `0.9`. -/
def specListTerm (w : ℚ) (c : String) (rows : List String) : ℚ :=
  if c ∈ rows then w / ((61 + List.indexOf c rows : Nat) : ℚ) else 0

/-- Claim-side fused score for original query `q0` and expansions `qs`. -/
def specFusedScore (retr : String → List String) (q0 : String) (qs : List String)
    (c : String) : ℚ :=
  specListTerm 1 c (retr q0) + (qs.map (fun q => specListTerm (9 / 10) c (retr q))).sum

/-- A chunk absent from a list receives no contribution from it. -/
theorem rowContrib_of_notMem (w : ℚ) (c : String) (rows : List String) :
    ∀ rank, c ∉ rows → rowContrib w c rows rank = 0 := by
  induction rows with
  | nil => intro rank _; rfl
  | cons r rs ih =>
      intro rank h
      rw [List.mem_cons, not_or] at h
      have hrc : r ≠ c := fun hrc => h.1 hrc.symm
      simp only [rowContrib, if_neg hrc, ih (rank + 1) h.2, zero_add]

/-- On a duplicate-free list, the dict contribution is exactly
`w / (60 + rank_of_c)` with 1-indexed rank. -/
theorem rowContrib_of_nodup (w : ℚ) (c : String) (rows : List String) :
    ∀ rank, rows.Nodup → c ∈ rows →
      rowContrib w c rows rank = w / ((rank + List.indexOf c rows + 60 : Nat) : ℚ) := by
  induction rows with
  | nil => intro rank _ h; simp at h
  | cons r rs ih =>
      intro rank hnd hmem
      rcases List.nodup_cons.mp hnd with ⟨hr, hnd'⟩
      by_cases hrc : r = c
      · subst hrc
        rw [List.indexOf_cons_self]
        simp only [rowContrib, if_pos rfl, rowContrib_of_notMem w r rs (rank + 1) hr, add_zero]
        push_cast
        ring
      · have hmem' : c ∈ rs := by
          rcases List.mem_cons.mp hmem with h | h
          · exact absurd h.symm hrc
          · exact h
        rw [List.indexOf_cons_ne rs hrc]
        simp only [rowContrib, if_neg hrc, zero_add, ih (rank + 1) hnd' hmem']
        push_cast
        ring

/-- `rowContrib` at rank 1 on a duplicate-free list is the claim-side term. -/
theorem rowContrib_spec (w : ℚ) (c : String) (rows : List String) (hnd : rows.Nodup) :
    rowContrib w c rows 1 = specListTerm w c rows := by
  by_cases hmem : c ∈ rows
  · rw [rowContrib_of_nodup w c rows 1 hnd hmem, specListTerm, if_pos hmem]
    have : (1 + List.indexOf c rows + 60 : Nat) = (61 + List.indexOf c rows : Nat) := by omega
    rw [this]
  · rw [rowContrib_of_notMem w c rows 1 hmem, specListTerm, if_neg hmem]

/-- Dropping empty lists does not change the fused score. -/
theorem restScore_filter (c : String) (lists : List (List String)) :
    restScore c (lists.filter (fun rows => rows ≠ [])) = restScore c lists := by
  induction lists with
  | nil => rfl
  | cons rows rest ih =>
      by_cases h : rows = []
      · subst h
        simpa [restScore, List.filter_cons, rowContrib] using ih
      · rw [List.filter_cons, if_pos (by simp [h] : decide (rows ≠ []) = true)]
        simp only [restScore]
        rw [ih]

/-- The tail contributions equal the claim-side `0.9`-weighted sum. -/
theorem restScore_map (retr : String → List String) (c : String) (qs : List String)
    (hnd : ∀ q ∈ qs, (retr q).Nodup) :
    restScore c (qs.map retr) = (qs.map (fun q => specListTerm (9 / 10) c (retr q))).sum := by
  induction qs with
  | nil => rfl
  | cons q rest ih =>
      simp only [List.map_cons, restScore, List.sum_cons,
        rowContrib_spec (9 / 10) c (retr q) (hnd q (List.mem_cons_self q rest))]
      rw [ih (fun x hx => hnd x (List.mem_cons_of_mem q hx))]

/-- C9 (amended): when the original (first) query returns at least one
result, the fused score of every chunk computed by
`retrieve_expanded_context` equals the claim-side sum — weight `1.0` for the
original query's (duplicate-free) ranked list, `0.9` for every expansion
list, `1`-indexed rank and rank constant `60`. -/
theorem rrf_fused_score_eq_spec (retr : String → List String) (q0 : String) (qs : List String)
    (c : String) (h0 : retr q0 ≠ []) (hnd : ∀ q ∈ q0 :: qs, (retr q).Nodup) :
    rrfScore (allRankedOf retr (q0 :: qs)) c = specFusedScore retr q0 qs c := by
  have hall : allRankedOf retr (q0 :: qs)
      = retr q0 :: ((qs.map retr).filter (fun rows => rows ≠ [])) := by
    rw [allRankedOf, List.map_cons, List.filter_cons,
      if_pos (by simp [h0] : decide (retr q0 ≠ []) = true)]
  rw [hall, rrfScore, restScore_filter, specFusedScore,
    rowContrib_spec 1 c (retr q0) (hnd q0 (List.mem_cons_self q0 qs)),
    restScore_map retr c qs (fun q hq => hnd q (List.mem_cons_of_mem q0 hq))]

/-- C9 witness: concrete two-list fusion where the amended equation holds. -/
def retrW : String → List String :=
  fun q => if q = "q0" then ["a1", "a2"] else if q = "q1" then ["b1", "b2"] else []

theorem rrf_fused_score_eq_spec_witness :
    rrfScore (allRankedOf retrW ["q0", "q1"]) "a1" = specFusedScore retrW "q0" ["q1"] "a1" :=
  rrf_fused_score_eq_spec retrW "q0" ["q1"] "a1" (by decide)
    (by intro q hq; fin_cases hq <;> decide)

/-- C9 counterexample: when the original query returns no results, its empty
list is filtered out and weight `1.0` falls on the first expansion list, so
the fused score differs from the claim-side sum (which keeps weight `0.9`
for the expansion): the chunk "a" scores `1/61` in the code but `9/610`
under the claim. -/
def retrC9 : String → List String :=
  fun q => if q = "e1" then ["a"] else if q = "e2" then ["b"] else []

theorem rrf_weight_counterexample :
    rrfScore (allRankedOf retrC9 ["orig", "e1", "e2"]) "a"
      ≠ specFusedScore retrC9 "orig" ["e1", "e2"] "a" := by
  have h1 : rrfScore (allRankedOf retrC9 ["orig", "e1", "e2"]) "a" = 1 / 61 := by
    simp [retrC9, allRankedOf, rrfScore, restScore, rowContrib, List.filter_cons]
  have h2 : specFusedScore retrC9 "orig" ["e1", "e2"] "a" = 9 / 610 := by
    simp [retrC9, specFusedScore, specListTerm, List.indexOf, List.findIdx_cons]
    norm_num
  rw [h1, h2]
  norm_num

/-- On a duplicate-free list, first-occurrence deduplication is the
identity. -/
theorem dedupFirst_eq_self : ∀ l : List String, l.Nodup → dedupFirst l = l := by
  intro l
  induction l with
  | nil => intro _; rw [dedupFirst]
  | cons x xs ih =>
      intro hnd
      rcases List.nodup_cons.mp hnd with ⟨hx, hnd'⟩
      have hfilter : xs.filter (fun y => y ≠ x) = xs :=
        List.filter_eq_self.mpr (fun y hy => by
          simp only [decide_eq_true_eq]
          exact fun hyx => hx (hyx ▸ hy))
      rw [dedupFirst, hfilter, ih hnd']

/-- The head of the stable descending sort is the element of strictly
maximal score. -/
theorem sortByScoreDesc_head_of_strict_max (score : String → ℚ) (keys : List String)
    (z : String) (hz : z ∈ keys) (hmax : ∀ y ∈ keys, y ≠ z → score y < score z) :
    (sortByScoreDesc score keys).head? = some z := by
  have hsorted : List.Sorted (fun a b => score b ≤ score a) (sortByScoreDesc score keys) := by
    haveI : IsTotal String (fun a b => score b ≤ score a) :=
      ⟨fun a b => le_total (score b) (score a)⟩
    haveI : IsTrans String (fun a b => score b ≤ score a) :=
      ⟨fun _ _ _ hab hbc => le_trans hbc hab⟩
    exact List.sorted_insertionSort _ keys
  have hperm : (sortByScoreDesc score keys).Perm keys := List.perm_insertionSort _ keys
  have hzmem : z ∈ sortByScoreDesc score keys := hperm.mem_iff.mpr hz
  cases hsort : sortByScoreDesc score keys with
  | nil => rw [hsort] at hzmem; simp at hzmem
  | cons h t =>
      rw [hsort] at hzmem hsorted
      rcases List.mem_cons.mp hzmem with rfl | hzt
      · rfl
      · have hrel : score z ≤ score h := List.rel_of_sorted_cons hsorted z hzt
        have hhmem : h ∈ keys := hperm.mem_iff.mp (hsort ▸ List.mem_cons_self h t)
        by_cases hhz : h = z
        · simp [hhz]
        · exact absurd hrel (not_le.mpr (hmax h hhmem hhz))

/-- Fused score over exactly two ranked lists. -/
theorem rrfScore_pair (L0 L1 : List String) (c : String) :
    rrfScore [L0, L1] c = rowContrib 1 c L0 1 + rowContrib (9 / 10) c L1 1 := by
  simp [rrfScore, restScore]

/-- C10: for two non-empty equal-length duplicate-free result lists with no
common item — the first from the original query (weight `1.0`), the second
from an expansion (weight `0.9`) — `retrieve_expanded_context` places the
rank-1 item of the original query's list first in the fused output. -/
theorem rrf_first_is_original_top (retr : String → List String) (q0 q1 : String)
    (A B : List String) (k : Nat)
    (hA : retr q0 = A) (hB : retr q1 = B) (hA0 : A ≠ []) (hB0 : B ≠ [])
    (hlen : A.length = B.length) (hdisj : ∀ x ∈ A, x ∉ B)
    (hndA : A.Nodup) (hndB : B.Nodup) (hk : 1 ≤ k) :
    (retrieveExpandedContext retr [q0, q1] k).head? = A.head? := by
  have hall : allRankedOf retr [q0, q1] = [A, B] := by
    simp [allRankedOf, hA, hB, List.filter_cons, hA0, hB0]
  have hre : retrieveExpandedContext retr [q0, q1] k = rrfMerge [A, B] k := by
    unfold retrieveExpandedContext
    rw [if_neg (by simp), hall]
  obtain ⟨a, A', rfl⟩ : ∃ a A', A = a :: A' := by
    cases A with
    | nil => exact absurd rfl hA0
    | cons a A' => exact ⟨a, A', rfl⟩
  have hnodupAB : ((a :: A') ++ B).Nodup :=
    List.Nodup.append hndA hndB (fun x hxA hxB => hdisj x hxA hxB)
  have hkeys : rrfKeys [a :: A', B] = (a :: A') ++ B := by
    rw [rrfKeys]
    have hfl : ([a :: A', B] : List (List String)).flatten = (a :: A') ++ B := by simp
    rw [hfl, dedupFirst_eq_self _ hnodupAB]
  have hanotB : a ∉ B := hdisj a (List.mem_cons_self a A')
  have hscore_a : rrfScore [a :: A', B] a = 1 / ((61 : ℕ) : ℚ) := by
    rw [rrfScore_pair, rowContrib_of_nodup 1 a (a :: A') 1 hndA (List.mem_cons_self a A'),
      rowContrib_of_notMem _ _ _ 1 hanotB, add_zero, List.indexOf_cons_self]
  have hmax : ∀ y ∈ (a :: A') ++ B, y ≠ a →
      rrfScore [a :: A', B] y < rrfScore [a :: A', B] a := by
    intro y hy hyne
    rw [hscore_a]
    rcases List.mem_append.mp hy with hyA | hyB
    · have hynotB : y ∉ B := hdisj y hyA
      rw [rrfScore_pair, rowContrib_of_nodup 1 y (a :: A') 1 hndA hyA,
        rowContrib_of_notMem _ _ _ 1 hynotB, add_zero,
        List.indexOf_cons_ne A' (fun h => hyne h.symm)]
      apply one_div_lt_one_div_of_lt (by norm_num)
      push_cast
      have hge : (0 : ℚ) ≤ (List.indexOf y A' : ℚ) := Nat.cast_nonneg _
      linarith
    · have hynotA : y ∉ (a :: A') := fun hmem => hdisj y hmem hyB
      rw [rrfScore_pair, rowContrib_of_notMem _ _ _ 1 hynotA, zero_add,
        rowContrib_of_nodup (9 / 10) y B 1 hndB hyB]
      rw [div_lt_div_iff₀ (by positivity) (by norm_num)]
      push_cast
      have hge : (0 : ℚ) ≤ (List.indexOf y B : ℚ) := Nat.cast_nonneg _
      linarith
  have hz : a ∈ (a :: A') ++ B := List.mem_append_left _ (List.mem_cons_self a A')
  have hhead := sortByScoreDesc_head_of_strict_max (rrfScore [a :: A', B])
    ((a :: A') ++ B) a hz hmax
  rw [hre, rrfMerge, hkeys]
  obtain ⟨m, rfl⟩ : ∃ m, k = m + 1 := ⟨k - 1, by omega⟩
  cases hs : sortByScoreDesc (rrfScore [a :: A', B]) ((a :: A') ++ B) with
  | nil => rw [hs] at hhead; simp at hhead
  | cons h t =>
      rw [hs] at hhead
      simp only [List.head?, Option.some.injEq] at hhead
      simp [List.take_succ_cons, hhead]

/-- C10 witness: fusing `["a1", "a2"]` (original) with `["b1", "b2"]`
(expansion) puts `"a1"` first. -/
theorem rrf_first_is_original_top_witness :
    (retrieveExpandedContext retrW ["q0", "q1"] 20).head? = (["a1", "a2"] : List String).head? :=
  rrf_first_is_original_top retrW "q0" "q1" ["a1", "a2"] ["b1", "b2"] 20
    rfl rfl (by decide) (by decide) (by decide) (by decide) (by decide) (by decide) (by decide)

/-! ## Evaluator (`app/agent/evaluator.py`)

`_parse_eval(raw, threshold)` strips code fences, parses JSON and extracts
`score`, `completeness`, `accuracy`, `gaps` with defaults and
`sufficient = bool(data.get("sufficient", score >= threshold))`, falling
back to the zero result on any parse/type error; it then applies
`if score < threshold: sufficient = False`. The JSON layer is embedded as
an `Option EvalJson`: `none` is any parse/type failure, and in `EvalJson`
the numeric fields carry the already-defaulted extractions while
`sufficientClaim` is the raw `"sufficient"` entry (`none` when absent, so
that the score-dependent default applies). -/

/-- The extracted fields of a successfully parsed evaluator JSON reply. -/
structure EvalJson where
  score : ℚ
  completeness : ℤ
  accuracy : ℤ
  gaps : List String
  sufficientClaim : Option Bool
deriving DecidableEq, Repr

/-- `_parse_eval` after the JSON layer. -/
def parseEval (parsed : Option EvalJson) (threshold : ℚ) : EvalResult :=
  match parsed with
  | none =>
      -- parse failure: 0.0, 0, 0, [], False; the final threshold check
      -- cannot change a flag that is already False
      ⟨0, 0, 0, [], false⟩
  | some d =>
      let sufficient0 := d.sufficientClaim.getD (decide (threshold ≤ d.score))
      let sufficient := if d.score < threshold then false else sufficient0
      ⟨d.score, d.completeness, d.accuracy, d.gaps, sufficient⟩

/-- `Evaluator.evaluate(goal, results)`: filter failed steps, return the
zero result with the goal as sole gap when none survive, the fail-safe at
the threshold when the backend call raises (`backend = .error`), and the
parsed result otherwise. -/
def evaluatorEvaluate (goal : String) (results : List StepResult)
    (backend : Except Unit (Option EvalJson)) (threshold : ℚ) : EvalResult :=
  let good := results.filter (fun r => !r.failed)
  if good.isEmpty then ⟨0, 0, 0, [goal], false⟩
  else
    match backend with
    | .error _ => ⟨threshold, 3, 3, [], true⟩
    | .ok parsed => parseEval parsed threshold

/-- C1 counterexample: the model claims `sufficient = false` with score `8`
at threshold `7`; the code keeps `false` even though `score >= threshold`,
so the claimed upward override does not happen. -/
theorem eval_sufficient_counterexample :
    (evaluatorEvaluate "g" [⟨0, "q", [], "a", false⟩]
        (Except.ok (some ⟨8, 4, 4, [], some false⟩)) 7).sufficient = false := by
  decide

/-- C1 (amended): on the parsed path with surviving results, the returned
`sufficient` is the model's claim (defaulting to `score >= threshold` when
absent) AND-ed with `score >= threshold`: the threshold overrides the model
downward only — a claim of `true` below the threshold becomes `false`, but
a claim of `false` at or above the threshold stays `false`. -/
theorem eval_sufficient_eq (goal : String) (results : List StepResult) (d : EvalJson)
    (threshold : ℚ) (hgood : results.filter (fun r => !r.failed) ≠ []) :
    (evaluatorEvaluate goal results (Except.ok (some d)) threshold).sufficient
      = (d.sufficientClaim.getD (decide (threshold ≤ d.score))
          && decide (threshold ≤ d.score)) := by
  unfold evaluatorEvaluate
  rw [if_neg (by simpa using hgood)]
  unfold parseEval
  by_cases h : d.score < threshold
  · simp [h, not_le.mpr h]
  · simp [h, not_lt.mp h]

/-- C1 witness: model claim `true` with score `8` at threshold `7` stays
sufficient. -/
theorem eval_sufficient_eq_witness :
    (evaluatorEvaluate "g" [⟨0, "q", [], "a", false⟩]
        (Except.ok (some ⟨8, 4, 4, [], some true⟩)) 7).sufficient
      = ((some true).getD (decide ((7 : ℚ) ≤ 8)) && decide ((7 : ℚ) ≤ 8)) :=
  eval_sufficient_eq "g" [⟨0, "q", [], "a", false⟩] ⟨8, 4, 4, [], some true⟩ 7 (by decide)

/-! ## Agent loop (`app/agent/doc_agent.py`)

`DocumentAgent.run` loops `while state.iterations < max_iter`, incrementing
the counter first; iteration 1 plans from the goal, later iterations read
the gaps of the last `EvalResult` and break before planning when they are
empty. Each iteration appends every executed `StepResult` and exactly one
`EvalResult`, then breaks on `sufficient` or on reaching the budget. After
the loop the Synthesizer always runs. The Planner, Executor, Evaluator and
Synthesizer are oracles here (arbitrary total functions), `planCalls` is a
ghost counter of Planner invocations, and the loop is written on explicit
fuel: `fuel = maxIter` makes the fuel-0 base case unreachable, because each
recursive call raises `iterations` by 1 and recursion continues only while
`iterations < maxIter`. -/

/-- `AgentState` from `app/agent/state.py`, extended with the ghost
`planCalls` counter (not part of the source state; it only counts Planner
invocations for the temporal claims). The `error` field of the source is
never written by `DocumentAgent.run` and is omitted. -/
structure AgentState where
  goal : String
  plan : List SubTask
  results : List StepResult
  evalHistory : List EvalResult
  iterations : Nat
  finalAnswer : String
  planCalls : Nat
deriving DecidableEq, Repr

/-- The four stage collaborators of the loop, as total functions. -/
structure AgentOracles where
  plan : String → List SubTask
  planFromGapsFn : List String → List SubTask
  execute : SubTask → StepResult
  evaluate : String → List StepResult → EvalResult
  synthesize : String → List StepResult → String × List String

/-- One `while` pass of `DocumentAgent.run` and its recursive continuation.
`planOpt = none` models a `break` before executing (the empty-gaps early
exit); the `getLast? = none` arm is unreachable from the initial state
because every completed iteration appends an `EvalResult`. -/
def runIter (o : AgentOracles) (maxIter : Nat) : Nat → AgentState → AgentState
  | 0, s => s
  | fuel + 1, s =>
      if s.iterations < maxIter then
        let s1 := { s with iterations := s.iterations + 1 }
        let planOpt : Option (List SubTask) :=
          if s1.iterations = 1 then some (o.plan s1.goal)
          else
            match s1.evalHistory.getLast? with
            | none => none
            | some lastEval =>
                if lastEval.gaps.isEmpty then none
                else some (o.planFromGapsFn lastEval.gaps)
        match planOpt with
        | none => s1
        | some plan =>
            let s2 := { s1 with plan := plan, planCalls := s1.planCalls + 1 }
            let s3 := { s2 with results := s2.results ++ plan.map o.execute }
            let ev := o.evaluate s3.goal s3.results
            let s4 := { s3 with evalHistory := s3.evalHistory ++ [ev] }
            if ev.sufficient then s4
            else if maxIter ≤ s4.iterations then s4
            else runIter o maxIter fuel s4
      else s

/-- The state `DocumentAgent.run` starts from. -/
def initialState (goal : String) : AgentState :=
  ⟨goal, [], [], [], 0, "", 0⟩

/-- `DocumentAgent.run(goal, ...)`: the loop followed by the unconditional
synthesis of the final answer. -/
def documentAgentRun (o : AgentOracles) (maxIter : Nat) (goal : String) : AgentState :=
  let s := runIter o maxIter maxIter (initialState goal)
  { s with finalAnswer := (o.synthesize goal s.results).1 }

/-- C2: when the evaluator backend raises on every call (modelled by the
evaluator oracle being `evaluatorEvaluate` with `backend = .error`), the
fail-safe returns score exactly at the threshold with `sufficient = true`
for any result set with a surviving step, and a run whose first plan is
non-empty and whose executor steps all succeed terminates after
iteration 1 with exactly that fail-safe `EvalResult` in its history. -/
theorem evaluator_failsafe_terminates (o : AgentOracles) (threshold : ℚ) (maxIter : Nat)
    (goal : String) (hmax : 1 ≤ maxIter) (hplan : o.plan goal ≠ [])
    (hexec : ∀ t, (o.execute t).failed = false)
    (hev : ∀ g rs, o.evaluate g rs = evaluatorEvaluate g rs (Except.error ()) threshold) :
    (∀ rs : List StepResult, (∃ r ∈ rs, r.failed = false) →
        evaluatorEvaluate goal rs (Except.error ()) threshold = ⟨threshold, 3, 3, [], true⟩)
    ∧ (documentAgentRun o maxIter goal).iterations = 1
    ∧ (documentAgentRun o maxIter goal).evalHistory = [⟨threshold, 3, 3, [], true⟩] := by
  have hfailsafe : ∀ rs : List StepResult, (∃ r ∈ rs, r.failed = false) →
      evaluatorEvaluate goal rs (Except.error ()) threshold = ⟨threshold, 3, 3, [], true⟩ := by
    intro rs ⟨r, hr, hf⟩
    have hmem : r ∈ rs.filter (fun r => !r.failed) :=
      List.mem_filter.mpr ⟨hr, by simp [hf]⟩
    have hne : (rs.filter (fun r => !r.failed)).isEmpty = false := by
      cases hflt : rs.filter (fun r => !r.failed) with
      | nil => rw [hflt] at hmem; simp at hmem
      | cons a l => simp
    unfold evaluatorEvaluate
    simp [hne]
  refine ⟨hfailsafe, ?_⟩
  obtain ⟨n, rfl⟩ : ∃ n, maxIter = n + 1 := ⟨maxIter - 1, by omega⟩
  have hev1 : o.evaluate goal ([] ++ (o.plan goal).map o.execute)
      = ⟨threshold, 3, 3, [], true⟩ := by
    rw [hev]
    apply hfailsafe
    obtain ⟨t0, ts, hpl⟩ : ∃ t0 ts, o.plan goal = t0 :: ts := by
      cases hpl : o.plan goal with
      | nil => exact absurd hpl hplan
      | cons t0 ts => exact ⟨t0, ts, rfl⟩
    exact ⟨o.execute t0,
      by rw [hpl]; exact List.mem_append_right _ (List.mem_map_of_mem _ (List.mem_cons_self t0 ts)),
      hexec t0⟩
  have hstep : runIter o (n + 1) (n + 1) (initialState goal)
      = { goal := goal, plan := o.plan goal, results := [] ++ (o.plan goal).map o.execute,
          evalHistory := [] ++ [⟨threshold, 3, 3, [], true⟩], iterations := 1,
          finalAnswer := "", planCalls := 1 } := by
    rw [runIter]
    simp only [initialState, Nat.succ_pos, if_pos, Nat.zero_add]
    rw [hev1]
    simp
  rw [documentAgentRun, hstep]
  exact ⟨rfl, by simp⟩

/-- Concrete oracles for a run whose evaluator backend always raises. -/
def oLoopFail : AgentOracles where
  plan := fun g => [⟨0, g, TaskStatus.pending⟩]
  planFromGapsFn := fun gs => planFromGaps gs 4
  execute := fun t => ⟨t.id, t.query, [], "ans", false⟩
  evaluate := fun g rs => evaluatorEvaluate g rs (Except.error ()) 7
  synthesize := fun _ _ => ("syn", [])

/-- C2 witness: threshold `7`, budget `3`, one successful step — the run
stops after iteration 1 with the fail-safe result. -/
theorem evaluator_failsafe_terminates_witness :
    (∀ rs : List StepResult, (∃ r ∈ rs, r.failed = false) →
        evaluatorEvaluate "g" rs (Except.error ()) 7 = ⟨7, 3, 3, [], true⟩)
    ∧ (documentAgentRun oLoopFail 3 "g").iterations = 1
    ∧ (documentAgentRun oLoopFail 3 "g").evalHistory = [⟨7, 3, 3, [], true⟩] :=
  evaluator_failsafe_terminates oLoopFail 7 3 "g" (by decide) (by decide)
    (fun _ => rfl) (fun _ _ => rfl)

/-- C5: once the `EvalResult` appended at some iteration (at least 1) has an
empty gaps list, the continuation of the loop calls no planner again,
executes nothing, appends nothing — it only increments the iteration
counter once before breaking — and every run hands its accumulated results
to the Synthesizer for the final answer. -/
theorem empty_gaps_stops_loop (o : AgentOracles) (maxIter fuel : Nat) (s : AgentState)
    (e : EvalResult) (h1 : 1 ≤ s.iterations) (h2 : s.evalHistory.getLast? = some e)
    (h3 : e.gaps = []) :
    (runIter o maxIter fuel s).planCalls = s.planCalls
    ∧ (runIter o maxIter fuel s).results = s.results
    ∧ (runIter o maxIter fuel s).evalHistory = s.evalHistory
    ∧ (runIter o maxIter fuel s).iterations ≤ s.iterations + 1
    ∧ ∀ g, (documentAgentRun o maxIter g).finalAnswer
        = (o.synthesize g (runIter o maxIter maxIter (initialState g)).results).1 := by
  cases fuel with
  | zero => exact ⟨rfl, rfl, rfl, Nat.le_succ _, fun g => rfl⟩
  | succ f =>
      by_cases hlt : s.iterations < maxIter
      · have hne1 : s.iterations + 1 ≠ 1 := by omega
        rw [runIter]
        simp only [if_pos hlt, hne1, if_false, h2, h3]
        refine ⟨?_, ?_, ?_, ?_, fun g => rfl⟩ <;> simp
      · rw [runIter, if_neg hlt]
        exact ⟨rfl, rfl, rfl, Nat.le_succ _, fun g => rfl⟩

/-- A loop state after one completed iteration whose evaluation reported no
gaps (and was not sufficient). -/
def sW : AgentState :=
  ⟨"g", [], [], [⟨0, 0, 0, [], false⟩], 1, "", 1⟩

/-- C5 witness: from a state with an empty-gaps last evaluation, the
continuation plans and executes nothing. -/
theorem empty_gaps_stops_loop_witness :
    (runIter oLoopFail 3 2 sW).planCalls = sW.planCalls
    ∧ (runIter oLoopFail 3 2 sW).results = sW.results
    ∧ (runIter oLoopFail 3 2 sW).evalHistory = sW.evalHistory
    ∧ (runIter oLoopFail 3 2 sW).iterations ≤ sW.iterations + 1
    ∧ ∀ g, (documentAgentRun oLoopFail 3 g).finalAnswer
        = (oLoopFail.synthesize g (runIter oLoopFail 3 3 (initialState g)).results).1 :=
  empty_gaps_stops_loop oLoopFail 3 2 sW ⟨0, 0, 0, [], false⟩ (by decide) (by decide) rfl

/-- Concrete oracles driving the loop into the empty-gaps early exit at
iteration 2: the first evaluation reports one gap, the second none. -/
def oLoopA : AgentOracles where
  plan := fun g => [⟨0, g, TaskStatus.pending⟩]
  planFromGapsFn := fun gs => planFromGaps gs 4
  execute := fun t => ⟨t.id, t.query, [], "ans", false⟩
  evaluate := fun _ rs =>
    if rs.length ≤ 1 then ⟨0, 0, 0, ["gap1"], false⟩ else ⟨0, 0, 0, [], false⟩
  synthesize := fun _ _ => ("syn", [])

/-- C6 counterexample: on the empty-gaps early exit the iteration counter
was already incremented, so the run ends with `iterations = 3` but only two
`EvalResult`s in the history. -/
theorem eval_history_length_counterexample :
    (documentAgentRun oLoopA 3 "g").iterations = 3
    ∧ (documentAgentRun oLoopA 3 "g").evalHistory.length = 2 := by
  decide

/-- The history/iteration relation that actually holds at loop exit:
balanced, or the counter one ahead after the empty-gaps early break. -/
def historyBalanced (t : AgentState) : Prop :=
  t.evalHistory.length = t.iterations
  ∨ (t.iterations = t.evalHistory.length + 1
      ∧ ∃ e, t.evalHistory.getLast? = some e ∧ e.gaps = [])

/-- The execute/evaluate body of one iteration preserves the invariant:
entering with the counter one ahead (it was just incremented), it appends
exactly one `EvalResult` and either stops balanced or recurses balanced. -/
theorem runIter_invariant_aux (o : AgentOracles) (maxIter f : Nat)
    (ih : ∀ s : AgentState, s.evalHistory.length = s.iterations →
      historyBalanced (runIter o maxIter f s))
    (s1 : AgentState) (plan : List SubTask)
    (hlen : s1.evalHistory.length + 1 = s1.iterations) :
    historyBalanced (
      let s2 := { s1 with plan := plan, planCalls := s1.planCalls + 1 }
      let s3 := { s2 with results := s2.results ++ plan.map o.execute }
      let ev := o.evaluate s3.goal s3.results
      let s4 := { s3 with evalHistory := s3.evalHistory ++ [ev] }
      if ev.sufficient then s4
      else if maxIter ≤ s4.iterations then s4
      else runIter o maxIter f s4) := by
  simp only []
  set ev := o.evaluate s1.goal (s1.results ++ plan.map o.execute) with hev
  have hbal : (s1.evalHistory ++ [ev]).length = s1.iterations := by
    simp [hlen.symm]
  by_cases hs : ev.sufficient
  · rw [if_pos hs]
    exact Or.inl hbal
  · rw [if_neg hs]
    by_cases hm : maxIter ≤ s1.iterations
    · rw [if_pos hm]
      exact Or.inl hbal
    · rw [if_neg hm]
      exact ih _ hbal

/-- Starting balanced, the loop ends balanced or one ahead with an
empty-gaps last evaluation. -/
theorem runIter_history_invariant (o : AgentOracles) (maxIter : Nat) :
    ∀ fuel (s : AgentState), s.evalHistory.length = s.iterations →
      historyBalanced (runIter o maxIter fuel s) := by
  intro fuel
  induction fuel with
  | zero => intro s h; exact Or.inl h
  | succ f ih =>
      intro s h
      rw [runIter]
      by_cases hlt : s.iterations < maxIter
      · rw [if_pos hlt]
        simp only []
        by_cases h1 : s.iterations + 1 = 1
        · rw [if_pos h1]
          exact runIter_invariant_aux o maxIter f ih
            { s with iterations := s.iterations + 1 } (o.plan s.goal) (by simp [h])
        · rw [if_neg h1]
          cases hlast : s.evalHistory.getLast? with
          | none =>
              have hnil : s.evalHistory = [] := List.getLast?_eq_none_iff.mp hlast
              have hzero : s.iterations = 0 := by rw [← h, hnil]; rfl
              exact absurd (by omega : s.iterations + 1 = 1) h1
          | some le =>
              simp only []
              by_cases hgap : le.gaps.isEmpty
              · rw [if_pos hgap]
                simp only []
                refine Or.inr ⟨by simp [h], le, ?_, List.isEmpty_iff.mp hgap⟩
                simpa using hlast
              · rw [if_neg hgap]
                exact runIter_invariant_aux o maxIter f ih
                  { s with iterations := s.iterations + 1 } (o.planFromGapsFn le.gaps)
                  (by simp [h])
      · rw [if_neg hlt]
        exact Or.inl h

/-- C6 (amended): at loop exit (and hence in the final event) the
`eval_history` length equals the completed-iteration count, except on the
empty-gaps early exit, where the counter was incremented once more before
the break: there `iterations = len(eval_history) + 1` and the last appended
`EvalResult` has an empty gaps list. -/
theorem eval_history_matches_iterations (o : AgentOracles) (maxIter : Nat) (goal : String) :
    (documentAgentRun o maxIter goal).evalHistory.length
        = (documentAgentRun o maxIter goal).iterations
    ∨ ((documentAgentRun o maxIter goal).iterations
          = (documentAgentRun o maxIter goal).evalHistory.length + 1
        ∧ ∃ e, (documentAgentRun o maxIter goal).evalHistory.getLast? = some e
            ∧ e.gaps = []) := by
  have hinv := runIter_history_invariant o maxIter maxIter (initialState goal) rfl
  rcases hinv with h | ⟨h1, e, h2, h3⟩
  · exact Or.inl (by simpa [documentAgentRun] using h)
  · exact Or.inr ⟨by simpa [documentAgentRun] using h1, e,
      by simpa [documentAgentRun] using h2, h3⟩

/-! ## Generation backend, executor and synthesizer
(`app/services/llm_service.py`, `app/agent/tools/answer.py`,
`app/agent/tools/retrieval.py`, `app/agent/executor.py`,
`app/agent/synthesizer.py`)

The HTTP layer is embedded as an `HttpResult`: the POST either raises at
`raise_for_status()` (`statusError`), raises a transport error
(`transportError`), or succeeds with a body whose JSON parse is
`GemResponse.json` (`none` models a body that is not valid JSON, where
`response.json()` raises `json.JSONDecodeError`). Python exception classes
that matter for `except` clauses are the constructors of `PyExn`;
`llmError` is `LLMServiceError` (and the `RuntimeError` of the agent-side
raw callers). -/

/-- The exception classes that can cross the embedded call boundaries. -/
inductive PyExn where
  | llmError (msg : String)
  | jsonDecodeError
  | httpStatusError
  | httpTransportError
deriving DecidableEq, Repr

/-- `candidates[0]` of a Gemini body: the `text` fields of its parts, with
`""` standing for an absent or empty (falsy) text. -/
structure GemCandidate where
  parts : List String
deriving DecidableEq, Repr

/-- A parsed Gemini JSON body: `data.get("candidates") or []`. -/
structure GemJson where
  candidates : List GemCandidate
deriving DecidableEq, Repr

/-- An HTTP 200 response; `json = none` means the body is not valid JSON. -/
structure GemResponse where
  json : Option GemJson
deriving DecidableEq, Repr

/-- Outcome of the `httpx` POST to the generation backend. -/
inductive HttpResult where
  | statusError (code : Nat) (body : String)
  | transportError (msg : String)
  | success (resp : GemResponse)
deriving DecidableEq, Repr

/-- `_extract_text(response_data)` of `llm_service.py`: raises
`LLMServiceError` on no candidates or no text, else joins and strips. -/
def extractText (j : GemJson) : Except PyExn String :=
  match j.candidates with
  | [] => Except.error (PyExn.llmError "Gemini returned no candidates")
  | c :: _ =>
      let textParts := c.parts.filter (fun t => t ≠ "")
      if textParts.isEmpty then
        Except.error (PyExn.llmError "Gemini response contained no text")
      else Except.ok (pyStrip (String.intercalate "\n" textParts))

/-- `generate_answer(query, context, history)` of `llm_service.py` as a
function of the backend outcome: the missing key and both `httpx` error
classes are raised or wrapped as `LLMServiceError`, but `response.json()`
runs outside the `try` block, so a non-JSON body raises
`json.JSONDecodeError` unwrapped. -/
def generateAnswer (hasKey : Bool) (http : HttpResult) : Except PyExn String :=
  if !hasKey then Except.error (PyExn.llmError "GEMINI_API_KEY is not set")
  else
    match http with
    | HttpResult.statusError code body =>
        Except.error (PyExn.llmError
          ("Gemini request failed with status " ++ toString code ++ ": " ++ body))
    | HttpResult.transportError msg =>
        Except.error (PyExn.llmError ("Gemini request failed: " ++ msg))
    | HttpResult.success resp =>
        match resp.json with
        | none => Except.error PyExn.jsonDecodeError
        | some j => extractText j

/-- `AnswerTool.run`: catches only `LLMServiceError`, returning the
`f"[ERROR: {exc}]"` sentinel; any other exception propagates. -/
def answerToolRun (gen : Except PyExn String) : Except PyExn String :=
  match gen with
  | Except.ok a => Except.ok a
  | Except.error (PyExn.llmError msg) => Except.ok ("[ERROR: " ++ msg ++ "]")
  | Except.error e => Except.error e

/-- `RetrievalTool.run`: catches every exception and returns `[]`. -/
def retrievalToolRun (retrOutcome : Except PyExn (List String)) : List String :=
  match retrOutcome with
  | Except.ok chunks => chunks
  | Except.error _ => []

/-- `answer.startswith("[ERROR:")` of `Executor.execute`. -/
def sentinelPrefixed (answer : String) : Bool :=
  headMatch "[ERROR:".data answer.data

/-- `Executor.execute(task, db, user_id, history)`: status becomes RUNNING,
retrieval runs (never raises), then the answer tool; an exception from the
answer tool propagates (`Except.error`), otherwise the StepResult and the
final task status are returned. -/
def executorExecute (retrOutcome : Except PyExn (List String)) (hasKey : Bool)
    (http : HttpResult) (task : SubTask) : Except PyExn (StepResult × TaskStatus) :=
  let context := retrievalToolRun retrOutcome
  match answerToolRun (generateAnswer hasKey http) with
  | Except.error e => Except.error e
  | Except.ok answer =>
      let failed := sentinelPrefixed answer
      let status := if failed then TaskStatus.failed else TaskStatus.done
      Except.ok (⟨task.id, task.query, context, answer, failed⟩, status)

/-- C3 counterexample: a generation backend answering 200 with a non-JSON
body makes `response.json()` raise `json.JSONDecodeError`, which neither
`generate_answer`, `AnswerTool.run` nor `Executor.execute` catches: the
executor raises instead of returning a StepResult. -/
theorem executor_raises_counterexample :
    executorExecute (Except.ok []) true (HttpResult.success ⟨none⟩) ⟨0, "q", TaskStatus.pending⟩
      = Except.error PyExn.jsonDecodeError := by
  rfl

/-- The `f"[ERROR: {exc}]"` sentinel always starts with `"[ERROR:"`. -/
theorem sentinelPrefixed_format (m : String) :
    sentinelPrefixed ("[ERROR: " ++ m ++ "]") = true := by
  have h : ("[ERROR: " ++ m ++ "]").data
      = '[' :: 'E' :: 'R' :: 'R' :: 'O' :: 'R' :: ':' :: ' ' :: (m.data ++ [']']) := by
    rw [String.data_append, String.data_append]
    rfl
  rw [sentinelPrefixed, h]
  rfl

/-- Every failure of `generate_answer` is an `LLMServiceError`, except the
JSON-decode failure of a 200 response with a non-JSON body. -/
theorem generateAnswer_error_classes (hasKey : Bool) (http : HttpResult) (e : PyExn)
    (h : generateAnswer hasKey http = Except.error e) :
    (∃ m, e = PyExn.llmError m)
    ∨ (e = PyExn.jsonDecodeError ∧ ∃ resp, http = HttpResult.success resp ∧ resp.json = none) := by
  unfold generateAnswer at h
  by_cases hk : hasKey
  · cases http with
    | statusError code body =>
        simp [hk] at h
        exact Or.inl ⟨_, h.symm⟩
    | transportError msg =>
        simp [hk] at h
        exact Or.inl ⟨_, h.symm⟩
    | success resp =>
        cases hj : resp.json with
        | none =>
            simp [hk, hj] at h
            exact Or.inr ⟨h.symm, resp, rfl, hj⟩
        | some j =>
            simp [hk, hj] at h
            unfold extractText at h
            cases hc : j.candidates with
            | nil =>
                simp [hc] at h
                exact Or.inl ⟨_, h.symm⟩
            | cons c rest =>
                simp [hc] at h
                by_cases hp : ∀ a ∈ c.parts, a = ""
                · rw [if_pos hp] at h
                  injection h with h'
                  exact Or.inl ⟨_, h'.symm⟩
                · rw [if_neg hp] at h
                  simp at h
  · simp at hk
    simp [hk] at h
    exact Or.inl ⟨_, h.symm⟩

/-- C3 (amended): as long as the generation backend's HTTP response body
parses as JSON (or the call fails before the body parse), `Executor.execute`
returns a StepResult and never raises, whatever the retrieval backend does;
the returned `failed` flag is exactly the error-marker test on the answer,
on any generation failure the answer carries the `[ERROR:` sentinel with
`failed = true` and status `failed`, and on a generated answer without the
marker the task status becomes `done`. A 200 response with a non-JSON body
is the exception: there `json.JSONDecodeError` escapes. -/
theorem executor_no_raise (retrOutcome : Except PyExn (List String)) (hasKey : Bool)
    (http : HttpResult) (task : SubTask)
    (hjson : ∀ resp, http = HttpResult.success resp → resp.json ≠ none) :
    ∃ r status, executorExecute retrOutcome hasKey http task = Except.ok (r, status)
      ∧ r.failed = sentinelPrefixed r.answer
      ∧ (∀ e, generateAnswer hasKey http = Except.error e →
          r.failed = true ∧ status = TaskStatus.failed)
      ∧ (∀ a, generateAnswer hasKey http = Except.ok a → sentinelPrefixed a = false →
          r.failed = false ∧ status = TaskStatus.done) := by
  cases hg : generateAnswer hasKey http with
  | ok a =>
      refine ⟨⟨task.id, task.query, retrievalToolRun retrOutcome, a, sentinelPrefixed a⟩,
        if sentinelPrefixed a then TaskStatus.failed else TaskStatus.done, ?_, rfl, ?_, ?_⟩
      · simp [executorExecute, answerToolRun, hg]
      · intro e he
        simp at he
      · intro a' ha hsp
        injection ha with ha'
        subst ha'
        simp [hsp]
  | error e0 =>
      rcases generateAnswer_error_classes hasKey http e0 hg with ⟨m, rfl⟩ | ⟨_, resp, hsucc, hnone⟩
      · refine ⟨⟨task.id, task.query, retrievalToolRun retrOutcome,
          "[ERROR: " ++ m ++ "]", true⟩, TaskStatus.failed, ?_, ?_, ?_, ?_⟩
        · simp [executorExecute, answerToolRun, hg, sentinelPrefixed_format m]
        · simp [sentinelPrefixed_format m]
        · intro e _
          exact ⟨rfl, rfl⟩
        · intro a ha _
          simp at ha
      · exact absurd hnone (hjson resp hsucc)

/-- C3 witness: a transport failure is wrapped as `LLMServiceError` and
turned into a failed StepResult. -/
theorem executor_no_raise_witness :
    ∃ r status,
      executorExecute (Except.ok ["c"]) false (HttpResult.transportError "t")
          ⟨0, "q", TaskStatus.pending⟩
        = Except.ok (r, status)
      ∧ r.failed = sentinelPrefixed r.answer
      ∧ (∀ e, generateAnswer false (HttpResult.transportError "t") = Except.error e →
          r.failed = true ∧ status = TaskStatus.failed)
      ∧ (∀ a, generateAnswer false (HttpResult.transportError "t") = Except.ok a →
          sentinelPrefixed a = false → r.failed = false ∧ status = TaskStatus.done) :=
  executor_no_raise (Except.ok ["c"]) false (HttpResult.transportError "t")
    ⟨0, "q", TaskStatus.pending⟩ (fun _ h => nomatch h)

/-- The synthesizer's private `_call_gemini_raw`: raises `LLMServiceError`
only for the missing key and the no-candidates reply; `raise_for_status()`
and transport failures raise raw `httpx` errors, and a non-JSON body raises
`json.JSONDecodeError` — none of them wrapped. An empty parts list yields
the empty string without raising. -/
def synthCallGeminiRaw (hasKey : Bool) (http : HttpResult) : Except PyExn String :=
  if !hasKey then Except.error (PyExn.llmError "GEMINI_API_KEY is not set")
  else
    match http with
    | HttpResult.statusError _ _ => Except.error PyExn.httpStatusError
    | HttpResult.transportError _ => Except.error PyExn.httpTransportError
    | HttpResult.success resp =>
        match resp.json with
        | none => Except.error PyExn.jsonDecodeError
        | some j =>
            match j.candidates with
            | [] => Except.error (PyExn.llmError "Gemini returned no candidates")
            | c :: _ =>
                Except.ok (pyStrip (String.intercalate "\n" (c.parts.filter (fun t => t ≠ ""))))

/-- The deterministic fallback of `Synthesizer.synthesize`:
`"\n\n".join(f"**{r.query}**\n{r.answer}" for r in good)`. -/
def synthFallback (good : List StepResult) : String :=
  String.intercalate "\n\n" (good.map (fun r => "**" ++ r.query ++ "**\n" ++ r.answer))

/-- `Synthesizer.synthesize(goal, results)`: filters failed results,
returns the fixed insufficient-information message on an empty remainder,
deduplicates the context chunks, and catches only `LLMServiceError` from
its raw call, falling back to concatenation; other exceptions escape. -/
def synthesize (hasKey : Bool) (http : HttpResult) (_goal : String)
    (results : List StepResult) : Except PyExn (String × List String) :=
  let good := results.filter (fun r => !r.failed)
  if good.isEmpty then
    Except.ok
      ("I could not find sufficient information in your documents to answer this goal.", [])
  else
    let chunks := dedupFirst (good.flatMap (fun r => r.context))
    match synthCallGeminiRaw hasKey http with
    | Except.ok answer => Except.ok (answer, chunks)
    | Except.error (PyExn.llmError _) => Except.ok (synthFallback good, chunks)
    | Except.error e => Except.error e

/-- C4 counterexample: an HTTP error status raises `httpx.HTTPStatusError`
inside the synthesizer's raw call, which its `except LLMServiceError`
does not catch: the exception escapes `synthesize` instead of producing the
concatenation fallback. -/
theorem synthesize_raises_counterexample :
    synthesize true (HttpResult.statusError 500 "boom") "g" [⟨0, "q", [], "a", false⟩]
      = Except.error PyExn.httpStatusError := by
  rfl

/-- C4 (amended): when the raw generation call fails with an
`LLMServiceError` (missing API key, or a reply without candidates) and at
least one StepResult survives, `synthesize` returns the deterministic
fallback — each surviving sub-question/sub-answer pair as a labeled
section — with the deduplicated context list; HTTP status, transport and
JSON-decode failures are not caught and escape instead. -/
theorem synthesize_fallback_on_llm_error (hasKey : Bool) (http : HttpResult) (goal : String)
    (results : List StepResult) (m : String)
    (hgood : results.filter (fun r => !r.failed) ≠ [])
    (hfail : synthCallGeminiRaw hasKey http = Except.error (PyExn.llmError m)) :
    synthesize hasKey http goal results
      = Except.ok (synthFallback (results.filter (fun r => !r.failed)),
          dedupFirst ((results.filter (fun r => !r.failed)).flatMap (fun r => r.context))) := by
  have hne : (results.filter (fun r => !r.failed)).isEmpty = false :=
    List.isEmpty_eq_false.mpr hgood
  unfold synthesize
  simp [hne, hfail]

/-- C4 witness: with the API key missing and one surviving result, the
fallback concatenation and the deduplicated chunks are returned. -/
theorem synthesize_fallback_on_llm_error_witness :
    synthesize false (HttpResult.success ⟨none⟩) "g" [⟨0, "q", ["c"], "a", false⟩]
      = Except.ok (synthFallback (([⟨0, "q", ["c"], "a", false⟩] : List StepResult).filter
            (fun r => !r.failed)),
          dedupFirst ((([⟨0, "q", ["c"], "a", false⟩] : List StepResult).filter
            (fun r => !r.failed)).flatMap (fun r => r.context))) :=
  synthesize_fallback_on_llm_error false (HttpResult.success ⟨none⟩) "g"
    [⟨0, "q", ["c"], "a", false⟩] "GEMINI_API_KEY is not set" (by decide) rfl
